import Mathlib

/-!
Verification of the peer-connection core of a BitTorrent client
(`protocol/bt/torrent/peer_conn.go`).

The Go source is shallowly embedded: pure computations become Lean
functions over `Int` (Go `int64`/`int` arithmetic; `uint32` casts are
modelled as `% 2^32`), fallible code returns `Option`/`Except`, and the
handlers' effects on connection state and on the channels are modelled as
explicit result records.
-/

namespace Gopeed

/-- Go: `const blockSize = 2 << 13` (16 KiB). -/
def blockSize : Int := 2 * 2 ^ 13

/-- Go: `const keepaliveTimeout = 60 * 2` (seconds). -/
def keepaliveTimeout : Int := 60 * 2

/-- `metainfo.FileDetail`: path segments and the torrent-relative byte
range `[Begin, End)` of one payload file. -/
structure FileDetail where
  Path : List String
  Begin : Int
  End : Int
deriving DecidableEq

/-- Go struct `fileBlock` from `peer_conn.go`: one slice of a received
block destined for one file. -/
structure fileBlock where
  filepath : String
  fileSeek : Int
  blockBegin : Int
  blockEnd : Int
deriving DecidableEq

/-- Go's `filepath.Join` on clean relative segments: interleave `/`. -/
def joinPath (segs : List String) : String :=
  String.intercalate "/" segs

/-- Helper for `getWriteFile`: index-carrying scan. -/
def getWriteFileAux (pieceBegin : Int) (i : Nat) : List FileDetail → Int
  | [] => -1
  | f :: rest =>
    if f.Begin ≤ pieceBegin ∧ f.End > pieceBegin then (i : Int)
    else getWriteFileAux pieceBegin (i + 1) rest

/-- Go `getWriteFile`: first index whose `[Begin, End)` contains
`pieceBegin`, `-1` if none. -/
def getWriteFile (pieceBegin : Int) (fds : List FileDetail) : Int :=
  getWriteFileAux pieceBegin 0 fds

/-- The multi-file loop of `handlePiece` (`for _, f := range fds[writeIndex:]`):
walk files from the one containing the block start, slicing the block. -/
def fileBlocksLoop (blockLength : Int) (blockFileBegin blockSeek : Int) :
    List FileDetail → List fileBlock
  | [] => []
  | f :: rest =>
    if f.End - blockFileBegin ≥ blockLength - blockSeek then
      [{ filepath := joinPath f.Path, fileSeek := blockFileBegin - f.Begin,
         blockBegin := blockSeek, blockEnd := blockSeek + (blockLength - blockSeek) }]
    else
      { filepath := joinPath f.Path, fileSeek := blockFileBegin - f.Begin,
        blockBegin := blockSeek, blockEnd := blockSeek + (f.End - blockFileBegin) } ::
      fileBlocksLoop blockLength f.End (blockSeek + (f.End - blockFileBegin)) rest

/-- The block-to-file mapping of `handlePiece`. `singleFile` stands for
Go's `len(info.Files) == 0`; `name` for `info.Name`. A negative
`getWriteFile` result makes Go's `fds[writeIndex:]` panic, modelled as
`none`. -/
def handlePieceFileBlocks (singleFile : Bool) (name : String)
    (fds : List FileDetail) (blockBegin blockLength : Int) :
    Option (List fileBlock) :=
  if singleFile then
    some [{ filepath := name, fileSeek := blockBegin,
            blockBegin := 0, blockEnd := blockLength }]
  else
    let writeIndex := getWriteFile blockBegin fds
    if writeIndex < 0 then none
    else some (fileBlocksLoop blockLength blockBegin 0 (fds.drop writeIndex.toNat))

/-- The file list is contiguous and gap-free starting at `a`: each file's
`Begin` is the previous `End`, and each file is nonempty. -/
def chainOk : Int → List FileDetail → Prop
  | _, [] => True
  | a, f :: rest => f.Begin = a ∧ f.Begin < f.End ∧ chainOk f.End rest

instance decChainOk : (a : Int) → (fds : List FileDetail) → Decidable (chainOk a fds)
  | _, [] => isTrue trivial
  | a, f :: rest =>
    have : Decidable (chainOk f.End rest) := decChainOk f.End rest
    inferInstanceAs (Decidable (f.Begin = a ∧ f.Begin < f.End ∧ chainOk f.End rest))

/-- End offset of the last file, `a` for an empty list. -/
def lastEnd (a : Int) : List FileDetail → Int
  | [] => a
  | f :: rest => lastEnd f.End rest

/-- `tilesFrom a b fbs`: the block-relative sub-ranges of `fbs` exactly
tile `[a, b)`, in order, contiguous and non-overlapping. -/
def tilesFrom : Int → Int → List fileBlock → Prop
  | a, b, [] => a = b
  | a, b, fb :: rest => fb.blockBegin = a ∧ a ≤ fb.blockEnd ∧ tilesFrom fb.blockEnd b rest

instance decTilesFrom : (a b : Int) → (fbs : List fileBlock) → Decidable (tilesFrom a b fbs)
  | a, b, [] => inferInstanceAs (Decidable (a = b))
  | a, b, fb :: rest =>
    have : Decidable (tilesFrom fb.blockEnd b rest) := decTilesFrom fb.blockEnd b rest
    inferInstanceAs
      (Decidable (fb.blockBegin = a ∧ a ≤ fb.blockEnd ∧ tilesFrom fb.blockEnd b rest))

/-- Total number of block bytes covered by a FileBlock list. -/
def sumLens (fbs : List fileBlock) : Int :=
  (fbs.map (fun fb => fb.blockEnd - fb.blockBegin)).sum

lemma lastEnd_cons (a : Int) (f : FileDetail) (rest : List FileDetail) :
    lastEnd a (f :: rest) = lastEnd f.End rest := rfl

lemma fileBlocksLoop_tilesFrom (fds : List FileDetail) :
    ∀ (a L bfb bs : Int), chainOk a fds → a ≤ bfb → bs ≤ L →
      L - bs ≤ lastEnd a fds - bfb →
      (∀ f ∈ fds.head?, bfb ≤ f.End) →
      tilesFrom bs L (fileBlocksLoop L bfb bs fds) := by
  induction fds with
  | nil =>
    intro a L bfb bs _ hab hbsL hcap _
    simp only [lastEnd] at hcap
    show bs = L
    omega
  | cons f rest ih =>
    intro a L bfb bs hchain hab hbsL hcap hhd
    obtain ⟨hfa, hfe, hcr⟩ := hchain
    have hbf : bfb ≤ f.End := hhd f (by simp)
    rw [lastEnd_cons] at hcap
    simp only [fileBlocksLoop]
    by_cases hge : f.End - bfb ≥ L - bs
    · simp only [if_pos hge]
      exact ⟨rfl, show bs ≤ bs + (L - bs) by omega, show bs + (L - bs) = L by omega⟩
    · simp only [if_neg hge]
      refine ⟨rfl, show bs ≤ bs + (f.End - bfb) by omega, ?_⟩
      refine ih f.End L f.End (bs + (f.End - bfb)) hcr le_rfl (by omega) (by omega) ?_
      intro g hg
      cases rest with
      | nil => simp at hg
      | cons g0 gs =>
        simp at hg
        obtain ⟨hg0, hg1, _⟩ := hcr
        subst hg
        omega

lemma chainOk_mem_contains (fds : List FileDetail) :
    ∀ a p, chainOk a fds → a ≤ p → p < lastEnd a fds →
      ∃ f ∈ fds, f.Begin ≤ p ∧ p < f.End := by
  induction fds with
  | nil =>
    intro a p _ hap hpl
    simp only [lastEnd] at hpl
    omega
  | cons f rest ih =>
    intro a p hchain hap hpl
    obtain ⟨hfa, hfe, hcr⟩ := hchain
    rw [lastEnd_cons] at hpl
    by_cases hpe : p < f.End
    · exact ⟨f, by simp, by omega, hpe⟩
    · obtain ⟨g, hgmem, hg⟩ := ih f.End p hcr (by omega) hpl
      exact ⟨g, by simp [hgmem], hg⟩

lemma getWriteFileAux_found (fds : List FileDetail) :
    ∀ (i : Nat) (p : Int), (∃ f ∈ fds, f.Begin ≤ p ∧ p < f.End) →
      ∃ j f rest, getWriteFileAux p i fds = ((i + j : Nat) : Int) ∧
        fds.drop j = f :: rest ∧ f.Begin ≤ p ∧ p < f.End ∧
        (∀ k, k < j → ∀ g ∈ fds.get? k, ¬(g.Begin ≤ p ∧ p < g.End)) := by
  induction fds with
  | nil => intro i p h; simp at h
  | cons f rest ih =>
    intro i p h
    by_cases hf : f.Begin ≤ p ∧ f.End > p
    · refine ⟨0, f, rest, ?_, rfl, hf.1, hf.2, ?_⟩
      · simp [getWriteFileAux, hf]
      · intro k hk
        omega
    · have h' : ∃ g ∈ rest, g.Begin ≤ p ∧ p < g.End := by
        obtain ⟨g, hgmem, hg⟩ := h
        simp only [List.mem_cons] at hgmem
        rcases hgmem with rfl | hgmem
        · exact absurd ⟨hg.1, hg.2⟩ hf
        · exact ⟨g, hgmem, hg⟩
      obtain ⟨j, g, grest, hval, hdrop, h1, h2, hleast⟩ := ih (i + 1) p h'
      refine ⟨j + 1, g, grest, ?_, by simpa using hdrop, h1, h2, ?_⟩
      · simp only [getWriteFileAux, if_neg hf]
        rw [hval]
        congr 1
        omega
      · intro k hk gg hgg
        cases k with
        | zero =>
          simp only [List.get?] at hgg
          simp only [Option.mem_def, Option.some_inj] at hgg
          subst hgg
          exact fun hc => hf ⟨hc.1, hc.2⟩
        | succ k' =>
          exact hleast k' (by omega) gg (by simpa using hgg)

lemma chainOk_drop (fds : List FileDetail) :
    ∀ (j : Nat) (a : Int), chainOk a fds →
      ∀ f rest, fds.drop j = f :: rest →
        chainOk f.Begin (f :: rest) ∧ lastEnd f.Begin (f :: rest) = lastEnd a fds := by
  induction fds with
  | nil => intro j a _ f rest h; simp at h
  | cons g gs ih =>
    intro j a hchain f rest hdrop
    obtain ⟨hga, hge, hcr⟩ := hchain
    cases j with
    | zero =>
      simp only [List.drop_zero, List.cons.injEq] at hdrop
      obtain ⟨rfl, rfl⟩ := hdrop
      exact ⟨⟨rfl, hge, hcr⟩, by rw [lastEnd_cons, lastEnd_cons]⟩
    | succ j' =>
      have h := ih j' g.End hcr f rest (by simpa using hdrop)
      exact ⟨h.1, by rw [lastEnd_cons]; exact h.2⟩

lemma tilesFrom_sumLens (fbs : List fileBlock) :
    ∀ a b, tilesFrom a b fbs → sumLens fbs = b - a := by
  induction fbs with
  | nil =>
    intro a b h
    simp only [tilesFrom] at h
    simp [sumLens, h]
  | cons fb rest ih =>
    intro a b h
    obtain ⟨h1, h2, h3⟩ := h
    have hr := ih fb.blockEnd b h3
    simp only [sumLens, List.map_cons, List.sum_cons] at hr ⊢
    omega

/-- C1: `handlePiece`'s file-region mapping decomposes a received block's
byte range `[0, len)` into FileBlocks whose block-relative sub-ranges are
contiguous (each begins where the previous ends, the first at 0),
non-overlapping, and sum to exactly `len`, for both single-file and
multi-file layouts, provided the block lies within the contiguous,
ordered, gap-free file ranges. -/
theorem handlePiece_fileBlocks_tile (singleFile : Bool) (name : String)
    (fds : List FileDetail) (lo blockBegin L : Int)
    (hchain : chainOk lo fds) (hlo : lo ≤ blockBegin)
    (hhi : blockBegin + L ≤ lastEnd lo fds) (hL : 0 < L) :
    ∃ fbs, handlePieceFileBlocks singleFile name fds blockBegin L = some fbs ∧
      tilesFrom 0 L fbs ∧ sumLens fbs = L := by
  cases singleFile with
  | true =>
    refine ⟨[{ filepath := name, fileSeek := blockBegin,
               blockBegin := 0, blockEnd := L }],
            by simp [handlePieceFileBlocks], ?_, ?_⟩
    · exact ⟨rfl, show (0 : Int) ≤ L by omega, rfl⟩
    · simp [sumLens]
  | false =>
    have hmem : ∃ f ∈ fds, f.Begin ≤ blockBegin ∧ blockBegin < f.End :=
      chainOk_mem_contains fds lo blockBegin hchain hlo (by omega)
    obtain ⟨j, f, rest, hval, hdrop, h1, h2, hleast⟩ :=
      getWriteFileAux_found fds 0 blockBegin hmem
    obtain ⟨hchain', hlast'⟩ := chainOk_drop fds j lo hchain f rest hdrop
    have htile : tilesFrom 0 L (fileBlocksLoop L blockBegin 0 (f :: rest)) := by
      refine fileBlocksLoop_tilesFrom (f :: rest) f.Begin L blockBegin 0 hchain'
        h1 (by omega) (by rw [hlast']; omega) ?_
      intro g hg
      simp at hg
      subst hg
      omega
    have hgw : getWriteFile blockBegin fds = ((j : Nat) : Int) := by
      simpa [getWriteFile] using hval
    have hres : handlePieceFileBlocks false name fds blockBegin L =
        some (fileBlocksLoop L blockBegin 0 (f :: rest)) := by
      simp only [handlePieceFileBlocks, Bool.false_eq_true, if_false, hgw]
      rw [if_neg (by omega)]
      have htn : (((j : Nat) : Int)).toNat = j := by omega
      rw [htn, hdrop]
    refine ⟨_, hres, htile, ?_⟩
    have hs := tilesFrom_sumLens _ 0 L htile
    omega

/-- Witness for C1 at a concrete three-file layout with a block spanning
two file boundaries. -/
theorem handlePiece_fileBlocks_tile_witness :
    (chainOk 0 [⟨["a"], 0, 10⟩, ⟨["b", "c"], 10, 30⟩, ⟨["d"], 30, 35⟩] ∧
      (0 : Int) ≤ 5 ∧
      (5 : Int) + 28 ≤ lastEnd 0 [⟨["a"], 0, 10⟩, ⟨["b", "c"], 10, 30⟩, ⟨["d"], 30, 35⟩] ∧
      (0 : Int) < 28) ∧
    ∃ fbs, handlePieceFileBlocks false "n"
        [⟨["a"], 0, 10⟩, ⟨["b", "c"], 10, 30⟩, ⟨["d"], 30, 35⟩] 5 28 = some fbs ∧
      tilesFrom 0 28 fbs ∧ sumLens fbs = 28 :=
  ⟨⟨by decide, by decide, by decide, by decide⟩,
   handlePiece_fileBlocks_tile false "n"
     [⟨["a"], 0, 10⟩, ⟨["b", "c"], 10, 30⟩, ⟨["d"], 30, 35⟩] 0 5 28
     (by decide) (by decide) (by decide) (by decide)⟩

/-- C2 counterexample: for files `[0,10)` and `[10,30)` and a block at
torrent offsets `[5,25)` (length 20), the second FileBlock produced by
the code ends at block offset 20 (the block's length), not 25 as the
claim states. -/
theorem handlePiece_example_claim_false :
    handlePieceFileBlocks false "n" [⟨["file0"], 0, 10⟩, ⟨["file1"], 10, 30⟩] 5 20 ≠
      some [{ filepath := "file0", fileSeek := 5, blockBegin := 0, blockEnd := 5 },
            { filepath := "file1", fileSeek := 0, blockBegin := 5, blockEnd := 25 }] := by
  decide

/-- C2 (amended): the block at torrent offsets `[5,25)` over files
`[0,10)` and `[10,30)` maps to FileBlock(file0, seek 5, bytes `[0:5]`)
and FileBlock(file1, seek 0, bytes `[5:20]`). -/
theorem handlePiece_example_mapping :
    handlePieceFileBlocks false "n" [⟨["file0"], 0, 10⟩, ⟨["file1"], 10, 30⟩] 5 20 =
      some [{ filepath := "file0", fileSeek := 5, blockBegin := 0, blockEnd := 5 },
            { filepath := "file1", fileSeek := 0, blockBegin := 5, blockEnd := 20 }] := by
  decide

lemma getWriteFileAux_none (fds : List FileDetail) :
    ∀ (i : Nat) (p : Int), (∀ f ∈ fds, ¬(f.Begin ≤ p ∧ p < f.End)) →
      getWriteFileAux p i fds = -1 := by
  induction fds with
  | nil => intro i p _; rfl
  | cons f rest ih =>
    intro i p h
    have hf : ¬(f.Begin ≤ p ∧ f.End > p) := h f (by simp)
    simp only [getWriteFileAux, if_neg hf]
    exact ih (i + 1) p fun g hg => h g (by simp [hg])

/-- C10: `getWriteFile` returns the least index whose `[Begin, End)`
range contains the offset when one exists and `-1` otherwise, so the
block-to-file mapping (which slices `fds[writeIndex:]` unchecked) is
well-defined exactly when the queried offset lies in some file's range. -/
theorem getWriteFile_least_or_none (p : Int) (fds : List FileDetail) :
    ((∃ f ∈ fds, f.Begin ≤ p ∧ p < f.End) →
      ∃ j : Nat, getWriteFile p fds = (j : Int) ∧
        (∃ f rest, fds.drop j = f :: rest ∧ f.Begin ≤ p ∧ p < f.End) ∧
        (∀ k, k < j → ∀ g ∈ fds.get? k, ¬(g.Begin ≤ p ∧ p < g.End))) ∧
    ((∀ f ∈ fds, ¬(f.Begin ≤ p ∧ p < f.End)) → getWriteFile p fds = -1) ∧
    (∀ name L, (∀ f ∈ fds, ¬(f.Begin ≤ p ∧ p < f.End)) →
      handlePieceFileBlocks false name fds p L = none) ∧
    (∀ name L, (∃ f ∈ fds, f.Begin ≤ p ∧ p < f.End) →
      ∃ fbs, handlePieceFileBlocks false name fds p L = some fbs) := by
  have hnone : (∀ f ∈ fds, ¬(f.Begin ≤ p ∧ p < f.End)) → getWriteFile p fds = -1 :=
    fun h => getWriteFileAux_none fds 0 p h
  have hfound : (∃ f ∈ fds, f.Begin ≤ p ∧ p < f.End) →
      ∃ j : Nat, getWriteFile p fds = (j : Int) ∧
        (∃ f rest, fds.drop j = f :: rest ∧ f.Begin ≤ p ∧ p < f.End) ∧
        (∀ k, k < j → ∀ g ∈ fds.get? k, ¬(g.Begin ≤ p ∧ p < g.End)) := by
    intro h
    obtain ⟨j, f, rest, hval, hdrop, h1, h2, hleast⟩ := getWriteFileAux_found fds 0 p h
    exact ⟨j, by simpa [getWriteFile] using hval, ⟨f, rest, hdrop, h1, h2⟩, hleast⟩
  refine ⟨hfound, hnone, ?_, ?_⟩
  · intro name L h
    simp [handlePieceFileBlocks, hnone h]
  · intro name L h
    obtain ⟨j, hval, ⟨f, rest, hdrop, _, _⟩, _⟩ := hfound h
    refine ⟨fileBlocksLoop L p 0 (f :: rest), ?_⟩
    simp only [handlePieceFileBlocks, Bool.false_eq_true, if_false, hval]
    rw [if_neg (by omega)]
    have htn : ((j : Nat) : Int).toNat = j := by omega
    rw [htn, hdrop]

/-- Witness for C10 at a concrete file layout: offset 15 is in the
second file (index 1), offset 99 is in no file. -/
theorem getWriteFile_least_or_none_witness :
    (∃ j : Nat, getWriteFile 15 [⟨["a"], 0, 10⟩, ⟨["b"], 10, 30⟩] = (j : Int) ∧
      (∃ f rest, ([⟨["a"], 0, 10⟩, ⟨["b"], 10, 30⟩] : List FileDetail).drop j = f :: rest ∧
        f.Begin ≤ 15 ∧ (15 : Int) < f.End) ∧
      (∀ k, k < j → ∀ g ∈ ([⟨["a"], 0, 10⟩, ⟨["b"], 10, 30⟩] : List FileDetail).get? k,
        ¬(g.Begin ≤ 15 ∧ (15 : Int) < g.End))) ∧
    getWriteFile 99 [⟨["a"], 0, 10⟩, ⟨["b"], 10, 30⟩] = -1 :=
  ⟨(getWriteFile_least_or_none 15 [⟨["a"], 0, 10⟩, ⟨["b"], 10, 30⟩]).1
     ⟨⟨["b"], 10, 30⟩, by decide, by decide, by decide⟩,
   (getWriteFile_least_or_none 99 [⟨["a"], 0, 10⟩, ⟨["b"], 10, 30⟩]).2.1 (by decide)⟩

/-- The four choke/interest flags plus the ready-guard flag of `peerConn`. -/
structure ConnState where
  amChoking : Bool
  amInterested : Bool
  peerChoking : Bool
  peerInterested : Bool
  readyEnd : Bool
deriving DecidableEq

/-- Go `handleUnchoke`: set `peerChoking = false`; if `readyEnd` is
already set do nothing more; otherwise set `readyEnd` and send the
current `amInterested` on the ready channel. The `Option Bool` is the
value sent on `readyCh` (none when nothing is sent). -/
def handleUnchoke (st : ConnState) : ConnState × Option Bool :=
  let st1 := { st with peerChoking := false }
  if st1.readyEnd then (st1, none)
  else ({ st1 with readyEnd := true }, some st1.amInterested)

/-- A run of Unchoke messages. Each list entry is the value of the
`amInterested` flag at the moment that Unchoke arrives (the flag is
owned by the environment, e.g. `handleBitfield`, between messages).
Collects every value sent on the ready channel, in order. -/
def runUnchokes (st : ConnState) : List Bool → ConnState × List Bool
  | [] => (st, [])
  | ai :: rest =>
    let out := handleUnchoke { st with amInterested := ai }
    let tail := runUnchokes out.1 rest
    (tail.1, out.2.toList ++ tail.2)

lemma runUnchokes_after_ready (evs : List Bool) :
    ∀ st : ConnState, st.readyEnd = true →
      (runUnchokes st evs).2 = [] ∧ (runUnchokes st evs).1.readyEnd = true ∧
      (runUnchokes st evs).1.peerChoking =
        (if evs.isEmpty then st.peerChoking else false) := by
  induction evs with
  | nil => intro st h; exact ⟨rfl, h, rfl⟩
  | cons ai rest ih =>
    intro st h
    have hstep : handleUnchoke { st with amInterested := ai } =
        ({ st with amInterested := ai, peerChoking := false }, none) := by
      simp [handleUnchoke, h]
    have hnext := ih { st with amInterested := ai, peerChoking := false } (by simpa using h)
    simp only [runUnchokes, hstep, Option.toList_none, List.nil_append]
    refine ⟨hnext.1, hnext.2.1, ?_⟩
    rw [hnext.2.2]
    cases rest <;> simp

/-- C5: every Unchoke sets `peerChoking` to false; the readiness signal
is sent exactly once, guarded by `readyEnd`, with value equal to the
`amInterested` flag at the time of the first Unchoke; once `readyEnd` is
set, no run of further Unchokes ever signals again. -/
theorem handleUnchoke_ready_once (st : ConnState) (ai : Bool) (ais : List Bool)
    (h : st.readyEnd = false) :
    (runUnchokes st (ai :: ais)).1.peerChoking = false ∧
    (runUnchokes st (ai :: ais)).2 = [ai] ∧
    (runUnchokes st (ai :: ais)).1.readyEnd = true ∧
    (∀ st2 evs, st2.readyEnd = true → (runUnchokes st2 evs).2 = []) := by
  have hstep : handleUnchoke { st with amInterested := ai } =
      ({ st with amInterested := ai, peerChoking := false, readyEnd := true },
       some ai) := by
    simp [handleUnchoke, h]
  have hnext := runUnchokes_after_ready ais
    { st with amInterested := ai, peerChoking := false, readyEnd := true } (by simp)
  simp only [runUnchokes, hstep, Option.toList_some, List.singleton_append]
  refine ⟨?_, ?_, hnext.2.1, fun st2 evs h2 => (runUnchokes_after_ready evs st2 h2).1⟩
  · rw [hnext.2.2]
    cases ais <;> simp
  · rw [hnext.1]

/-- Witness for C5: a concrete run of three Unchokes starting from a
fresh connection signals readiness exactly once with the interest flag
sampled at the first Unchoke. -/
theorem handleUnchoke_ready_once_witness :
    (runUnchokes ⟨true, false, true, false, false⟩ [true, false, true]).1.peerChoking = false ∧
    (runUnchokes ⟨true, false, true, false, false⟩ [true, false, true]).2 = [true] ∧
    (runUnchokes ⟨true, false, true, false, false⟩ [true, false, true]).1.readyEnd = true ∧
    (∀ st2 evs, st2.readyEnd = true → (runUnchokes st2 evs).2 = []) :=
  handleUnchoke_ready_once ⟨true, false, true, false, false⟩ true [false, true] rfl

/-- Outcome of one keepalive-loop iteration. -/
inductive TickOutcome where
  | closedIdle
  | sentKeepalive
  | closedWriteErr
deriving DecidableEq

/-- Go `keepaliveData = make([]byte, 4)`: four zero bytes, a keepalive
message consisting of a zero length prefix. -/
def keepaliveData : List Nat := List.replicate 4 0

/-- One iteration of Go `handleKeepalive`'s loop (after the 2-minute
sleep): close and stop when more than `keepaliveTimeout` seconds have
elapsed since the last received message; otherwise write the keepalive,
closing and stopping if the write fails. `closedIdle` and
`closedWriteErr` both close the socket and leave the loop. -/
def keepaliveTick (now lastReciveTime : Int) (writeFails : Bool) : TickOutcome :=
  if now - lastReciveTime > keepaliveTimeout then TickOutcome.closedIdle
  else if writeFails then TickOutcome.closedWriteErr
  else TickOutcome.sentKeepalive

/-- C6: on a keepalive tick the socket is closed without sending iff
more than 120 seconds (`keepaliveTimeout`) elapsed since the last
received message; otherwise the 4-byte all-zero keepalive is sent, and a
write failure also closes and stops. -/
theorem keepalive_tick_spec (now lastReciveTime : Int) (writeFails : Bool) :
    (keepaliveTick now lastReciveTime writeFails = TickOutcome.closedIdle ↔
      now - lastReciveTime > 120) ∧
    (now - lastReciveTime ≤ 120 →
      keepaliveTick now lastReciveTime writeFails =
        (if writeFails then TickOutcome.closedWriteErr else TickOutcome.sentKeepalive)) ∧
    keepaliveTimeout = 120 ∧
    keepaliveData.length = 4 ∧ (∀ b ∈ keepaliveData, b = 0) := by
  refine ⟨?_, ?_, by decide, by decide, by decide⟩
  · unfold keepaliveTick keepaliveTimeout
    by_cases hgt : now - lastReciveTime > 60 * 2
    · rw [if_pos hgt]
      exact iff_of_true rfl (by omega)
    · rw [if_neg hgt]
      refine iff_of_false ?_ (by omega)
      cases writeFails <;> simp
  · intro hle
    unfold keepaliveTick keepaliveTimeout
    rw [if_neg (by omega)]

/-- Witness for C6: at 121 seconds of silence the tick closes idle; at
120 seconds it sends the keepalive when the write succeeds. -/
theorem keepalive_tick_spec_witness :
    (keepaliveTick 121 0 false = TickOutcome.closedIdle ↔ (121 : Int) - 0 > 120) ∧
    ((121 : Int) - 0 ≤ 120 →
      keepaliveTick 121 0 false =
        (if false then TickOutcome.closedWriteErr else TickOutcome.sentKeepalive)) ∧
    keepaliveTimeout = 120 ∧
    keepaliveData.length = 4 ∧ (∀ b ∈ keepaliveData, b = 0) :=
  keepalive_tick_spec 121 0 false

/-- Modelled from the spec: `bitfield.Provide(had)` (wire-codec
collaborator outside this file's source) computes the piece indices the
remote claims to have that the local tracker has not completed; `had`
is the set of locally finished pieces. -/
def getHavePieces (remoteHas finished : List Nat) : List Nat :=
  remoteHas.filter (fun p => !(finished.contains p))

/-- Messages `handleBitfield` may send, in order. -/
inductive PeerMsg where
  | interested
  | unchoke
deriving DecidableEq

/-- Go `handleBitfield` after decoding the bitfield: when there are
wanted pieces, send Interested (setting `amInterested`), then Unchoke
(setting `amChoking = false`); otherwise close the connection. Returns
(new state, messages sent in order, connection closed). -/
def handleBitfield (st : ConnState) (remoteHas finished : List Nat) :
    ConnState × List PeerMsg × Bool :=
  if (getHavePieces remoteHas finished).length > 0 then
    ({ st with amInterested := true, amChoking := false },
     [PeerMsg.interested, PeerMsg.unchoke], false)
  else (st, [], true)

/-- C7: if the remote has pieces the local tracker lacks,
`handleBitfield` sends Interested then Unchoke and sets
`amInterested = true`, `amChoking = false` without closing; if not, it
closes the connection, sends nothing, and leaves all flags unchanged. -/
theorem handleBitfield_interest (st : ConnState) (remoteHas finished : List Nat) :
    (getHavePieces remoteHas finished ≠ [] →
      handleBitfield st remoteHas finished =
        ({ st with amInterested := true, amChoking := false },
         [PeerMsg.interested, PeerMsg.unchoke], false)) ∧
    (getHavePieces remoteHas finished = [] →
      handleBitfield st remoteHas finished = (st, [], true)) := by
  constructor
  · intro hne
    have hlen : (getHavePieces remoteHas finished).length > 0 :=
      List.length_pos.mpr hne
    rw [handleBitfield, if_pos hlen]
  · intro heq
    rw [handleBitfield, if_neg (by simp [heq])]

/-- Witness for C7: remote has pieces 0 and 1, only 1 is finished
locally, so Interested and Unchoke are sent; a remote with nothing new
causes closure with no messages and unchanged flags. -/
theorem handleBitfield_interest_witness :
    handleBitfield ⟨true, false, true, false, false⟩ [0, 1] [1] =
      (⟨false, true, true, false, false⟩, [PeerMsg.interested, PeerMsg.unchoke], false) ∧
    handleBitfield ⟨true, false, true, false, false⟩ [1] [1] =
      (⟨true, false, true, false, false⟩, [], true) :=
  ⟨(handleBitfield_interest ⟨true, false, true, false, false⟩ [0, 1] [1]).1 (by decide),
   (handleBitfield_interest ⟨true, false, true, false, false⟩ [1] [1]).2 (by decide)⟩

/-- Decoded protocol handshake (`peer.Handshake`). -/
structure Handshake where
  protocol : List Nat
  reserved : List Nat
  infoHash : List Nat
  peerId : List Nat
deriving DecidableEq

/-- Modelled from the spec: `peer.Handshake.Decode` (wire-codec
collaborator outside this file's source) splits a 68-byte response into
a length-prefixed protocol string padded to 20 bytes, 8 reserved bytes,
the 20-byte content hash at offset 28 and the 20-byte peer id at
offset 48. -/
def decodeHandshake (bytes : List Nat) : Option Handshake :=
  if bytes.length = 68 then
    some { protocol := bytes.take 20,
           reserved := (bytes.drop 20).take 8,
           infoHash := (bytes.drop 28).take 20,
           peerId := bytes.drop 48 }
  else none

/-- Go `handshake` after reading the 68-byte response: decode, reject a
content-hash mismatch with the wrong-swarm error, and only on success
initialise the four choke/interest flags fully closed. -/
def handshakeStep (sentInfoHash : List Nat) (response : List Nat) (st : ConnState) :
    Except String (Handshake × ConnState) :=
  match decodeHandshake response with
  | none => Except.error "handshake decode error"
  | some h =>
    if h.infoHash ≠ sentInfoHash then
      Except.error "info_hash not currently serving"
    else
      Except.ok (h, { st with amChoking := true, amInterested := false,
                              peerChoking := true, peerInterested := false })

/-- C8: any 68-byte response whose content-hash bytes (offsets 28..47)
differ from the sent hash is rejected with the wrong-swarm error,
regardless of every other byte; whenever the handshake succeeds the four
flags are initialised to choking/not-interested in both directions. -/
theorem handshake_rejects_wrong_hash (sentInfoHash response : List Nat)
    (st : ConnState) (h68 : response.length = 68) :
    ((response.drop 28).take 20 ≠ sentInfoHash →
      handshakeStep sentInfoHash response st =
        Except.error "info_hash not currently serving") ∧
    (∀ hs st2, handshakeStep sentInfoHash response st = Except.ok (hs, st2) →
      st2.amChoking = true ∧ st2.amInterested = false ∧
      st2.peerChoking = true ∧ st2.peerInterested = false) := by
  have hdec : decodeHandshake response =
      some { protocol := response.take 20,
             reserved := (response.drop 20).take 8,
             infoHash := (response.drop 28).take 20,
             peerId := response.drop 48 } := by
    rw [decodeHandshake, if_pos h68]
  constructor
  · intro hne
    rw [handshakeStep, hdec]
    simp only [if_pos hne]
  · intro hs st2 hok
    rw [handshakeStep, hdec] at hok
    by_cases hne : (response.drop 28).take 20 ≠ sentInfoHash
    · simp only [if_pos hne] at hok
      exact absurd hok (by simp)
    · simp only [if_neg hne, Except.ok.injEq, Prod.mk.injEq] at hok
      obtain ⟨-, h2⟩ := hok
      subst h2
      exact ⟨rfl, rfl, rfl, rfl⟩

/-- Witness for C8: an all-zero 68-byte response is rejected when the
sent hash is all ones. -/
theorem handshake_rejects_wrong_hash_witness :
    ((List.replicate 68 0).drop 28).take 20 ≠ List.replicate 20 1 ∧
    handshakeStep (List.replicate 20 1) (List.replicate 68 0)
        ⟨true, true, true, true, false⟩ =
      Except.error "info_hash not currently serving" :=
  ⟨by decide,
   (handshake_rejects_wrong_hash (List.replicate 20 1) (List.replicate 68 0)
      ⟨true, true, true, true, false⟩ (by decide)).1 (by decide)⟩

/-- A Request message body as built by `message.BuildRequest`
(`uint32` index, offset, length, modelled `% 2^32`). -/
structure Request where
  index : Int
  offset : Int
  length : Int
deriving DecidableEq

/-- The Request messages issued by Go `downloadPiece` for one piece:
block `i` sits at `offset = blockSize*i` and is skipped when the shared
tracker already marks it done; the final block's length is the remainder
`pieceLength - offset`, every other block's is `blockSize`; the wire
fields are `uint32`. -/
def downloadPieceRequests (index : Nat) (pieceLength : Int) (blockCount : Nat)
    (isBlockDone : Int → Bool) : List Request :=
  (List.range blockCount).filterMap fun (i : Nat) =>
    if isBlockDone (blockSize * (i : Int)) then none
    else
      some { index := (index : Int) % 2 ^ 32,
             offset := (blockSize * (i : Int)) % 2 ^ 32,
             length := if i = blockCount - 1
                       then (pieceLength - blockSize * (i : Int)) % 2 ^ 32
                       else blockSize }

/-- C9: every Request issued by `downloadPiece` targets an offset
`blockSize * i` for some block index `i < blockCount`; its length is the
16 KiB `blockSize` except at the final block's offset, where it is
exactly `pieceLength - blockSize*(blockCount-1)`. -/
theorem downloadPiece_request_lengths (index : Nat) (pieceLength : Int)
    (blockCount : Nat) (isBlockDone : Int → Bool)
    (hbc : 1 ≤ blockCount)
    (hlast : blockSize * ((blockCount : Int) - 1) ≤ pieceLength)
    (hlen : pieceLength < 2 ^ 32) :
    ∀ r ∈ downloadPieceRequests index pieceLength blockCount isBlockDone,
      (∃ i : Nat, i < blockCount ∧ r.offset = blockSize * (i : Int)) ∧
      (r.offset = blockSize * ((blockCount : Int) - 1) →
        r.length = pieceLength - blockSize * ((blockCount : Int) - 1)) ∧
      (r.offset ≠ blockSize * ((blockCount : Int) - 1) → r.length = blockSize) := by
  intro r hr
  simp only [downloadPieceRequests, List.mem_filterMap, List.mem_range] at hr
  obtain ⟨i, hi, hf⟩ := hr
  by_cases hdone : isBlockDone (blockSize * (i : Int))
  · rw [if_pos hdone] at hf
    exact absurd hf (by simp)
  · rw [if_neg hdone, Option.some_inj] at hf
    subst hf
    have hbs : (0 : Int) < blockSize := by decide
    have hoff_nonneg : (0 : Int) ≤ blockSize * (i : Int) :=
      mul_nonneg hbs.le (Int.natCast_nonneg i)
    have hoff_le : blockSize * (i : Int) ≤ blockSize * ((blockCount : Int) - 1) := by
      have hile : (i : Int) ≤ (blockCount : Int) - 1 := by omega
      exact mul_le_mul_of_nonneg_left hile hbs.le
    have hoff_lt : blockSize * (i : Int) < 2 ^ 32 := by omega
    have hoff : (blockSize * (i : Int)) % 2 ^ 32 = blockSize * (i : Int) :=
      Int.emod_eq_of_lt hoff_nonneg hoff_lt
    refine ⟨⟨i, hi, hoff⟩, ?_, ?_⟩
    · intro hlastoff
      rw [hoff] at hlastoff
      have hieq : i = blockCount - 1 := by
        have : (i : Int) = (blockCount : Int) - 1 := by
          have := mul_left_cancel₀ (show (blockSize : Int) ≠ 0 by decide) hlastoff
          exact this
        omega
      show (if i = blockCount - 1
            then (pieceLength - blockSize * (i : Int)) % 2 ^ 32
            else blockSize) = pieceLength - blockSize * ((blockCount : Int) - 1)
      rw [if_pos hieq]
      have hcast : (i : Int) = (blockCount : Int) - 1 := by omega
      rw [hcast]
      exact Int.emod_eq_of_lt (by omega) (by omega)
    · intro hnelast
      rw [hoff] at hnelast
      have hine : ¬(i = blockCount - 1) := by
        intro hieq
        apply hnelast
        have hcast : (i : Int) = (blockCount : Int) - 1 := by omega
        rw [hcast]
      show (if i = blockCount - 1
            then (pieceLength - blockSize * (i : Int)) % 2 ^ 32
            else blockSize) = blockSize
      rw [if_neg hine]

/-- Witness for C9: piece of length 20000 split into 2 blocks with no
block done yet: requests at offsets 0 and 16384 with lengths 16384 and
3616. -/
theorem downloadPiece_request_lengths_witness :
    downloadPieceRequests 0 20000 2 (fun _ => false) =
      [{ index := 0, offset := 0, length := 16384 },
       { index := 0, offset := 16384, length := 3616 }] ∧
    ((∃ i : Nat, i < 2 ∧ (16384 : Int) = blockSize * (i : Int)) ∧
      ((16384 : Int) = blockSize * ((2 : Nat) - 1 : Int) →
        (3616 : Int) = 20000 - blockSize * ((2 : Nat) - 1 : Int)) ∧
      ((16384 : Int) ≠ blockSize * ((2 : Nat) - 1 : Int) → (3616 : Int) = blockSize)) :=
  ⟨by decide,
   by
    have h := downloadPiece_request_lengths 0 20000 2 (fun _ => false)
      (by decide) (by decide) (by decide)
      { index := 0, offset := 16384, length := 3616 } (by decide)
    simpa using h⟩

/-- The error values `peer_conn.go` sends on the piece-completion
channel `downloadedCh`: the single sentinel
`errPieceCheckFailed = errors.New("piece check failed")`. -/
inductive BtErr where
  | errPieceCheckFailed
deriving DecidableEq

/-- Observable outcome of the write loop of `handlePiece`:
`signaled` is the error sent on `downloadedCh` (`none` when all writes
succeed), `closed` whether the connection was closed, `attempted` how
many FileBlocks were opened for writing. -/
structure WriteOut where
  signaled : Option BtErr
  closed : Bool
  attempted : Nat
deriving DecidableEq

/-- The write loop of `handlePiece` (`for _, f := range fileBlocks`):
open and write each FileBlock in order; on the first open/write failure
send `errPieceCheckFailed` on `downloadedCh`, close the connection and
return without touching the remaining FileBlocks. `writeFails` is the
environment: whether opening/writing a given FileBlock fails. -/
def writeFileBlocks (writeFails : fileBlock → Bool) : List fileBlock → WriteOut
  | [] => { signaled := none, closed := false, attempted := 0 }
  | f :: rest =>
    if writeFails f then
      { signaled := some BtErr.errPieceCheckFailed, closed := true, attempted := 1 }
    else
      let o := writeFileBlocks writeFails rest
      { signaled := o.signaled, closed := o.closed, attempted := o.attempted + 1 }

/-- The error sent on `downloadedCh` by the verification step of
`handlePiece`: Go `nil` (here `none`) when the SHA-1 digest equals the
expected piece hash, `errPieceCheckFailed` otherwise. -/
def verifySignal (hashMatches : Bool) : Option BtErr :=
  if hashMatches then none else some BtErr.errPieceCheckFailed

/-- C3 counterexample: when writing the (single) FileBlock of a block
fails, `handlePiece` signals exactly the error that the verification
failure path signals — `errPieceCheckFailed` — so the I/O-failure error
kind is not distinct from the verification-failure kind. -/
theorem write_error_signal_not_distinct :
    (writeFileBlocks (fun _ => true)
        [{ filepath := "f", fileSeek := 0, blockBegin := 0, blockEnd := 5 }]).signaled =
      verifySignal false ∧
    verifySignal false = some BtErr.errPieceCheckFailed := by
  decide

/-- C3 (amended): if opening or writing any constituent FileBlock
fails, `handlePiece` signals `errPieceCheckFailed` (the same error value
used for verification failure) on the completion channel, closes the
connection, and attempts no write beyond the failing one. -/
theorem write_error_aborts (writeFails : fileBlock → Bool) (fbs : List fileBlock)
    (hex : ∃ f ∈ fbs, writeFails f = true) :
    (writeFileBlocks writeFails fbs).signaled = some BtErr.errPieceCheckFailed ∧
    (writeFileBlocks writeFails fbs).closed = true ∧
    (writeFileBlocks writeFails fbs).attempted =
      (fbs.takeWhile (fun f => !writeFails f)).length + 1 := by
  induction fbs with
  | nil => simp at hex
  | cons f rest ih =>
    by_cases hf : writeFails f
    · have hcomp : writeFileBlocks writeFails (f :: rest) =
          { signaled := some BtErr.errPieceCheckFailed, closed := true, attempted := 1 } := by
        simp only [writeFileBlocks, if_pos hf]
      have htw : (f :: rest).takeWhile (fun g => !writeFails g) = [] := by
        simp [List.takeWhile_cons, hf]
      rw [hcomp, htw]
      exact ⟨rfl, rfl, rfl⟩
    · have hex' : ∃ g ∈ rest, writeFails g = true := by
        obtain ⟨g, hgmem, hg⟩ := hex
        rcases List.mem_cons.mp hgmem with rfl | hgmem'
        · exact absurd hg (by simp [hf])
        · exact ⟨g, hgmem', hg⟩
      obtain ⟨h1, h2, h3⟩ := ih hex'
      simp only [writeFileBlocks, if_neg hf]
      refine ⟨h1, h2, ?_⟩
      have htw : (f :: rest).takeWhile (fun g => !writeFails g) =
          f :: rest.takeWhile (fun g => !writeFails g) := by
        simp [List.takeWhile_cons, hf]
      rw [htw]
      simp only [List.length_cons]
      omega

/-- Witness for C3 (amended) at a concrete FileBlock list whose second
entry fails: one successful write, one failing attempt, nothing after. -/
theorem write_error_aborts_witness :
    (∃ f ∈ [({ filepath := "ok", fileSeek := 0, blockBegin := 0, blockEnd := 5 } : fileBlock),
            { filepath := "bad", fileSeek := 0, blockBegin := 5, blockEnd := 9 },
            { filepath := "never", fileSeek := 0, blockBegin := 9, blockEnd := 12 }],
        (fun fb => fb.filepath == "bad") f = true) ∧
    (writeFileBlocks (fun fb => fb.filepath == "bad")
        [{ filepath := "ok", fileSeek := 0, blockBegin := 0, blockEnd := 5 },
         { filepath := "bad", fileSeek := 0, blockBegin := 5, blockEnd := 9 },
         { filepath := "never", fileSeek := 0, blockBegin := 9, blockEnd := 12 }]).signaled =
      some BtErr.errPieceCheckFailed ∧
    (writeFileBlocks (fun fb => fb.filepath == "bad")
        [{ filepath := "ok", fileSeek := 0, blockBegin := 0, blockEnd := 5 },
         { filepath := "bad", fileSeek := 0, blockBegin := 5, blockEnd := 9 },
         { filepath := "never", fileSeek := 0, blockBegin := 9, blockEnd := 12 }]).closed = true ∧
    (writeFileBlocks (fun fb => fb.filepath == "bad")
        [{ filepath := "ok", fileSeek := 0, blockBegin := 0, blockEnd := 5 },
         { filepath := "bad", fileSeek := 0, blockBegin := 5, blockEnd := 9 },
         { filepath := "never", fileSeek := 0, blockBegin := 9, blockEnd := 12 }]).attempted =
      ([({ filepath := "ok", fileSeek := 0, blockBegin := 0, blockEnd := 5 } : fileBlock),
        { filepath := "bad", fileSeek := 0, blockBegin := 5, blockEnd := 9 },
        { filepath := "never", fileSeek := 0, blockBegin := 9, blockEnd := 12 }].takeWhile
          (fun fb => !(fb.filepath == "bad"))).length + 1 :=
  ⟨⟨{ filepath := "bad", fileSeek := 0, blockBegin := 5, blockEnd := 9 }, by decide, by decide⟩,
   write_error_aborts (fun fb => fb.filepath == "bad")
     [{ filepath := "ok", fileSeek := 0, blockBegin := 0, blockEnd := 5 },
      { filepath := "bad", fileSeek := 0, blockBegin := 5, blockEnd := 9 },
      { filepath := "never", fileSeek := 0, blockBegin := 9, blockEnd := 12 }]
     ⟨{ filepath := "bad", fileSeek := 0, blockBegin := 5, blockEnd := 9 }, by decide, by decide⟩⟩

/-- The path opened when writing a FileBlock of file `f` in
`handlePiece`: Go `filepath.Join(pc.torrent.Path, f.filepath)` with
`f.filepath = filepath.Join(f.Path...)` — every path segment. -/
def writeOpenPath (torrentPath : String) (f : FileDetail) : String :=
  joinPath [torrentPath, joinPath f.Path]

/-- The path opened by the verification re-read of `handlePiece`: Go
`path.Join(pc.torrent.Path, fd.Path[0])` — only the first path segment.
`none` models the `fd.Path[0]` index panic on an empty segment list. -/
def verifyOpenPath (torrentPath : String) (fd : FileDetail) : Option String :=
  fd.Path.head?.map (fun p0 => joinPath [torrentPath, p0])

/-- C4: for a file whose path has more than one segment the verification
step re-reads a different path than the one written (it drops every
segment after the first), while for single-segment paths the two agree —
the code contradicts the claim's "same file-location walk" exactly on
nested paths. -/
theorem verify_reads_wrong_path :
    writeOpenPath "T" { Path := ["dir", "file"], Begin := 0, End := 10 } = "T/dir/file" ∧
    verifyOpenPath "T" { Path := ["dir", "file"], Begin := 0, End := 10 } = some "T/dir" ∧
    verifyOpenPath "T" { Path := ["dir", "file"], Begin := 0, End := 10 } ≠
      some (writeOpenPath "T" { Path := ["dir", "file"], Begin := 0, End := 10 }) ∧
    verifyOpenPath "T" { Path := ["flat"], Begin := 0, End := 10 } =
      some (writeOpenPath "T" { Path := ["flat"], Begin := 0, End := 10 }) := by
  decide

end Gopeed
